import Mathlib

set_option maxHeartbeats 1000000

/-! Verification of the content-to-slide transformation pipeline of the UCL
Presentation Generator (ML_Group.py): bullet parsing, optional AI expansion,
deterministic fallback grouping, slide-count normalization, and the JSON
response extractor.

Strings are modelled as lists of characters (`Str`).  The Python string
primitives that the pipeline uses (strip, lstrip, split, title, capitalize)
are embedded below for the ASCII text the tool processes. -/

abbrev Str := List Char

/-- Whitespace characters stripped by Python str.strip() (ASCII range). -/
def isPyWs (c : Char) : Bool :=
  c = ' ' || c = '\t' || c = '\n' || c = '\r' || c = '\x0b' || c = '\x0c'

/-- Python str.strip(): drop leading and trailing whitespace. -/
def pyStrip (s : Str) : Str :=
  ((s.dropWhile isPyWs).reverse.dropWhile isPyWs).reverse

/-- Python str.split(sep) for a one-character separator: keeps empty pieces,
and splitting the empty string yields one empty piece. -/
def splitOnChar (sep : Char) : Str → List Str
  | [] => [[]]
  | c :: cs =>
    match splitOnChar sep cs with
    | [] => [[]]
    | g :: gs => if c = sep then [] :: g :: gs else (c :: g) :: gs

/-- Python str.split() with no argument: split on whitespace runs, no empty
pieces.  The accumulator holds the current word reversed. -/
def pyWordsAux (cur : Str) : Str → List Str
  | [] => if cur.isEmpty then [] else [cur.reverse]
  | c :: cs =>
    if isPyWs c then
      if cur.isEmpty then pyWordsAux [] cs else cur.reverse :: pyWordsAux [] cs
    else pyWordsAux (c :: cur) cs

def pyWords (s : Str) : List Str := pyWordsAux [] s

/-- Python str.title() for ASCII: a letter is uppercased when the previous
character is not a letter, lowercased otherwise. -/
def pyTitleAux (prevAlpha : Bool) : Str → Str
  | [] => []
  | c :: cs =>
    (if c.isAlpha then (if prevAlpha then c.toLower else c.toUpper) else c)
      :: pyTitleAux c.isAlpha cs

def pyTitle (s : Str) : Str := pyTitleAux false s

/-- Python str.capitalize(): first character uppercased, the rest lowercased. -/
def pyCapitalize : Str → Str
  | [] => []
  | c :: cs => c.toUpper :: cs.map Char.toLower

/-- Characters removed by the lstrip call in line 149 of ML_Group.py:
Python lstrip takes a SET of characters, so every leading dash or space
goes, not just one marker. -/
def isDashSpace (c : Char) : Bool := c = '-' || c = ' '

def lstripDashSpace (s : Str) : Str := s.dropWhile isDashSpace

/-- Line qualification from ML_Group.py line 150: the trimmed line is
non-empty and starts with a dash. -/
def qualifiesAsBullet (line : Str) : Bool :=
  let t := pyStrip line
  !t.isEmpty && t.headD ' ' = '-'

/-- BulletParser, lines 149-150 of ML_Group.py:
points = [pt.strip().lstrip(dash-space) for pt in bullet_points.split(newline)
          if pt.strip() and pt.strip().startswith(dash)]. -/
def parseBullets (bullet_points : Str) : List Str :=
  (splitOnChar '\n' bullet_points).filterMap fun pt =>
    if qualifiesAsBullet pt then some (lstripDashSpace (pyStrip pt)) else none

/-- Decimal rendering of a natural number (for the f-string interpolation of
len(group) in the slide notes, and for the JSON number serializer).
Fuel-based so that the definition is structurally recursive. -/
def digitChar (n : Nat) : Char := Char.ofNat (48 + n % 10)

def natDigitsFuel : Nat → Nat → Str
  | 0, _ => []
  | fuel + 1, n =>
    if n < 10 then [digitChar n]
    else natDigitsFuel fuel (n / 10) ++ [digitChar (n % 10)]

def natDigits (n : Nat) : Str := natDigitsFuel (n + 1) n

/-- PointData: one element of the AI response's points array, with every
field optional as in the untrusted JSON (spec section 3).  Fields are read
in the Python with .get or an explicit membership test. -/
structure PointData where
  main_point : Option Str
  sub_points : Option (List Str)
  speaker_notes : Option Str
deriving DecidableEq

/-- AIContent: the decoded AI response restricted to schema-shaped values.
In the Python this is the dict returned by parse_ai_response; membership
tests make every field optional.  Ill-shaped values (a non-dict point, a
non-list points field) make the Python raise before any deck is returned
and are outside this model. -/
structure AIContent where
  title : Option Str
  points : Option (List PointData)
  conclusion : Option (List Str)
deriving DecidableEq

/-- SlideRecord: the dicts appended to the slides list in ML_Group.py.
Only slide 0 carries a subtitle key; the model makes the key an Option. -/
structure Slide where
  title : Str
  subtitle : Option Str
  content : List Str
  notes : Str
deriving DecidableEq

/-- Title synthesis of lines 162-166: AI title when present, else
"UCL " ++ title-cased first up-to-3 words of the first bullet
(or the fixed fallback words when there are no bullets). -/
def defaultDeckTitle (points : List Str) : Str :=
  let mainWords :=
    match points with
    | [] => "UCL Presentation".data
    | p :: _ => List.intercalate [' '] ((pyWords p).take 3)
  "UCL ".data ++ pyTitle mainWords

def titleSlideTitle (points : List Str) (ai : Option AIContent) : Str :=
  match ai with
  | some a =>
    match a.title with
    | some t => t
    | none => defaultDeckTitle points
  | none => defaultDeckTitle points

/-- Title slide of lines 167-173. -/
def mkTitleSlide (points : List Str) (audience purpose : Str)
    (ai : Option AIContent) : Slide :=
  { title := titleSlideTitle points ai
    subtitle := some ("For ".data ++ pyTitle audience ++ ": ".data ++ pyCapitalize purpose)
    content := []
    notes := "Welcome. This presentation is designed for ".data ++ audience ++
      " to ".data ++ purpose ++ ".".data }

/-- AI point slide of lines 176-183: title is main_point up to the first
dot (or "Key Point" when main_point is missing or empty); content is
main_point followed by the sub_points when present and non-empty. -/
def mkPointSlide (audience : Str) (pd : PointData) : Slide :=
  let mp := pd.main_point.getD []
  let t := if mp.isEmpty then "Key Point".data else (splitOnChar '.' mp).headD []
  let subs :=
    match pd.sub_points with
    | some sps => if sps.isEmpty then [] else sps
    | none => []
  { title := t
    subtitle := none
    content := mp :: subs
    notes := pd.speaker_notes.getD
      ("Discuss how this relates to ".data ++ audience ++ ".".data) }

/-- Fixed generic closing content of lines 195 and 223. -/
def genericClosingContent (audience : Str) : List Str :=
  ["Summary of key points".data,
   "Application for ".data ++ audience,
   "Contact for further information".data]

def closingNotes : Str :=
  "Summarize the presentation and open for questions.".data

def mkClosingSlide (content : List Str) : Slide :=
  { title := "Next Steps".data
    subtitle := none
    content := content
    notes := closingNotes }

/-- One-bullet-per-slide fallback slide of lines 201-209. -/
def mkSingleBulletSlide (audience : Str) (p : Str) : Slide :=
  { title := "Focus on ".data ++ pyTitle (List.intercalate [' '] ((pyWords p).take 3))
    subtitle := none
    content := [p]
    notes := "Key point: ".data ++ p ++ ". Explain how this benefits ".data ++
      audience ++ ".".data }

/-- Grouped fallback slide of lines 213-220. -/
def mkGroupSlide (g : List Str) : Slide :=
  { title := pyTitle (List.intercalate [' '] ((pyWords (g.headD [])).take 3))
    subtitle := none
    content := g
    notes := "Discuss these ".data ++ natDigits g.length ++
      " related points and their impact.".data }

/-- Consecutive chunks of size k+1 (fuel-based so that the definition is
structurally recursive; callers pass fuel = list length).  This models the
Python loop for i in range(0, len(points), points_per_slide). -/
def chunksFuel {α : Type} (k : Nat) : Nat → List α → List (List α)
  | 0, _ => []
  | _, [] => []
  | fuel + 1, x :: xs => (x :: xs.take k) :: chunksFuel k fuel (xs.drop k)

def chunks {α : Type} (k : Nat) (l : List α) : List (List α) :=
  chunksFuel (k - 1) l.length l

/-- Fallback content slides of lines 200-220 (without the closing slide). -/
def fallbackContentSlides (points : List Str) (audience : Str)
    (slide_count : Nat) : List Slide :=
  if points.length ≤ slide_count - 2 then
    points.map (mkSingleBulletSlide audience)
  else
    let pps := max 1 (points.length / (slide_count - 2))
    (chunks pps points).map mkGroupSlide

/-- Slide assembly before length normalization, lines 161-225: title slide,
then either the AI point slides plus the AI closing slide (when the points
field is a list), or the fallback slides plus the generic closing slide. -/
def buildSlides (points : List Str) (audience purpose : Str)
    (slide_count : Nat) (ai : Option AIContent) : List Slide :=
  let titleSlide := mkTitleSlide points audience purpose ai
  match ai with
  | some a =>
    match a.points with
    | some pts =>
      titleSlide :: pts.map (mkPointSlide audience) ++
        [mkClosingSlide
          (match a.conclusion with
           | some c => c
           | none => genericClosingContent audience)]
    | none =>
      titleSlide :: fallbackContentSlides points audience slide_count ++
        [mkClosingSlide (genericClosingContent audience)]
  | none =>
    titleSlide :: fallbackContentSlides points audience slide_count ++
      [mkClosingSlide (genericClosingContent audience)]

/-- Length normalization of lines 227-229:
if len(slides) > slide_count then slides[0] + slides[1:slide_count-1] + slides[-1]. -/
def limitSlides (slide_count : Nat) (slides : List Slide) : List Slide :=
  if slide_count < slides.length then
    slides.take 1 ++ (slides.drop 1).take (slide_count - 2) ++ slides.getLast?.toList
  else slides

/-- enhance_content_with_ai, lines 146-230.  The external Gemini call plus
parse_ai_response pipeline is a black box (spec section 6) whose decoded
outcome is passed in as aiContent; ai_enabled = false means the call never
happens, exactly as in the Python. -/
def enhance_content_with_ai (bullet_points audience purpose : Str)
    (slide_count : Nat) (ai_enabled : Bool) (aiContent : Option AIContent) :
    List Slide :=
  let points := parseBullets bullet_points
  if points.isEmpty then []
  else
    let ai := if ai_enabled then aiContent else none
    limitSlides slide_count (buildSlides points audience purpose slide_count ai)

/-- Points field of the effective AI content: the condition of line 175. -/
def aiPointsOf : Option AIContent → Option (List PointData)
  | none => none
  | some a => a.points

/-- Conclusion field of the effective AI content: the condition of line 186. -/
def aiConclusionOf : Option AIContent → Option (List Str)
  | none => none
  | some a => a.conclusion

/-- Hex color conversion of lines 74-76; int(s, 16) fails on an empty or
non-hex slice, which the orchestrator's try/except catches. -/
def hexDigitVal (c : Char) : Option Nat :=
  if '0' ≤ c ∧ c ≤ '9' then some (c.toNat - 48)
  else if 'a' ≤ c ∧ c ≤ 'f' then some (c.toNat - 87)
  else if 'A' ≤ c ∧ c ≤ 'F' then some (c.toNat - 55)
  else none

def parseHexSlice (s : Str) : Option Nat :=
  if s.isEmpty then none
  else s.foldl (fun acc c => do
    let a ← acc
    let v ← hexDigitVal c
    pure (16 * a + v)) (some 0)

def hexToRgb (hexColor : Str) : Option (Nat × Nat × Nat) := do
  let h := hexColor.dropWhile (· == '#')
  let r ← parseHexSlice (h.take 2)
  let g ← parseHexSlice ((h.drop 2).take 2)
  let b ← parseHexSlice ((h.drop 4).take 2)
  pure (r, g, b)

def apostrophe : Char := Char.ofNat 39

/-- The user-facing message of line 423 of ML_Group.py. -/
def bulletErrorMessage : Str :=
  "Error: Could not process bullet points. Make sure they start with ".data ++
    [apostrophe, '-', apostrophe, '.']

/-- Outcome of one generate_presentation run: the returned message (preview
HTML or error text), the returned file path, and whether the rendering
collaborator create_presentation was invoked (instrumentation needed to
state claim C8's never-invoked property). -/
structure GenOutcome where
  message : Str
  filePath : Option Str
  renderInvoked : Bool
deriving DecidableEq

/-- generate_presentation, lines 413-437.  The preview builder and the
pptx renderer are external collaborators here (UI plumbing and the
document-rendering library, excluded by spec section 1); a renderer error
models the caught exception of line 434.  An invalid font color makes
hex_to_rgb raise before rendering, which the same except-branch catches. -/
def generate_presentation
    (previewOf : List Slide → Str)
    (renderDeck : Str → List Slide → Nat × Nat × Nat → Except Str Str)
    (bullet_points audience purpose template : Str) (slide_count : Nat)
    (use_ai : Bool) (aiContent : Option AIContent) (font_color_hex : Str) :
    GenOutcome :=
  let slides := enhance_content_with_ai bullet_points audience purpose
    slide_count use_ai aiContent
  if slides.isEmpty then
    { message := bulletErrorMessage, filePath := none, renderInvoked := false }
  else
    let preview := previewOf slides
    match hexToRgb font_color_hex with
    | none =>
      { message := "Error generating presentation: invalid font color".data
        filePath := none
        renderInvoked := false }
    | some rgb =>
      match renderDeck template slides rgb with
      | Except.ok path =>
        { message := preview, filePath := some path, renderInvoked := true }
      | Except.error e =>
        { message := "Error generating presentation: ".data ++ e
          filePath := none
          renderInvoked := true }

/-! Helper lemmas about the length-normalization step. -/

theorem getLast?_toList_length {α : Type} (l : List α) (h : l ≠ []) :
    l.getLast?.toList.length = 1 := by
  cases hl : l.getLast? with
  | none => exact absurd (List.getLast?_isSome.2 h) (by simp [hl])
  | some a => simp

theorem limitSlides_of_le (sc : Nat) (l : List Slide) (h : l.length ≤ sc) :
    limitSlides sc l = l := by
  simp [limitSlides, Nat.not_lt.2 h]

theorem limitSlides_of_gt (sc : Nat) (l : List Slide) (h : sc < l.length) :
    limitSlides sc l =
      l.take 1 ++ (l.drop 1).take (sc - 2) ++ l.getLast?.toList := by
  simp [limitSlides, h]

theorem limitSlides_length_of_gt (sc : Nat) (l : List Slide)
    (h2 : 2 ≤ sc) (h : sc < l.length) : (limitSlides sc l).length = sc := by
  have hne : l ≠ [] := by
    intro he
    rw [he] at h
    simp at h
  rw [limitSlides_of_gt sc l h]
  rw [List.length_append, List.length_append, List.length_take,
    List.length_take, List.length_drop, getLast?_toList_length l hne]
  omega

theorem limitSlides_length_le (sc : Nat) (l : List Slide) (h2 : 2 ≤ sc) :
    (limitSlides sc l).length ≤ sc := by
  by_cases h : sc < l.length
  · rw [limitSlides_length_of_gt sc l h2 h]
  · rw [limitSlides_of_le sc l (Nat.not_lt.1 h)]
    omega

theorem enhance_eq_limit (bp aud purp : Str) (sc : Nat) (aiE : Bool)
    (ai : Option AIContent) (hb : parseBullets bp ≠ []) :
    enhance_content_with_ai bp aud purp sc aiE ai =
      limitSlides sc (buildSlides (parseBullets bp) aud purp sc
        (if aiE then ai else none)) := by
  have hE : (parseBullets bp).isEmpty = false := by
    cases hp : parseBullets bp with
    | nil => exact absurd hp hb
    | cons a l => rfl
  simp [enhance_content_with_ai, hE]

/-- Claim C1: for every bullet list with at least one qualifying bullet and
every requested slide_count in 3..15, the slide sequence returned by
enhance_content_with_ai has length at most slide_count; whenever the
assembled pre-normalization sequence exceeds slide_count, the result is the
first slide, the next slide_count-2 slides, and the last slide (total
exactly slide_count); whenever the assembled sequence has length at most
slide_count, it is returned unchanged with no padding. -/
theorem C1_slide_count_normalization
    (bp aud purp : Str) (sc : Nat) (aiE : Bool) (ai : Option AIContent)
    (assembled : List Slide)
    (hb : parseBullets bp ≠ []) (h3 : 3 ≤ sc) (h15 : sc ≤ 15)
    (ha : assembled = buildSlides (parseBullets bp) aud purp sc
      (if aiE then ai else none)) :
    (enhance_content_with_ai bp aud purp sc aiE ai).length ≤ sc ∧
    (sc < assembled.length →
      enhance_content_with_ai bp aud purp sc aiE ai =
        assembled.take 1 ++ (assembled.drop 1).take (sc - 2) ++
          assembled.getLast?.toList ∧
      (enhance_content_with_ai bp aud purp sc aiE ai).length = sc) ∧
    (assembled.length ≤ sc →
      enhance_content_with_ai bp aud purp sc aiE ai = assembled) := by
  have hE := enhance_eq_limit bp aud purp sc aiE ai hb
  rw [hE, ← ha]
  refine ⟨limitSlides_length_le sc assembled (by omega), ?_, ?_⟩
  · intro hgt
    exact ⟨limitSlides_of_gt sc assembled hgt,
      limitSlides_length_of_gt sc assembled (by omega) hgt⟩
  · intro hle
    exact limitSlides_of_le sc assembled hle

theorem C1_witness :
    (enhance_content_with_ai ("- a\n- b\n- c\n- d\n- e".data) ("tourists".data)
      ("inform".data) 4 false none).length ≤ 4 :=
  (C1_slide_count_normalization ("- a\n- b\n- c\n- d\n- e".data)
    ("tourists".data) ("inform".data) 4 false none
    (buildSlides (parseBullets ("- a\n- b\n- c\n- d\n- e".data))
      ("tourists".data) ("inform".data) 4 none)
    (by decide) (by decide) (by decide) rfl).1

/-- Claim C9: the fallback (no-AI) slide construction is deterministic:
with ai_enabled = false the output of enhance_content_with_ai does not
depend on anything the external AI collaborator could have produced, so
two runs with identical inputs give identical slide sequences. -/
theorem C9_fallback_deterministic
    (bp aud purp : Str) (sc : Nat) (a1 a2 : Option AIContent) :
    enhance_content_with_ai bp aud purp sc false a1 =
      enhance_content_with_ai bp aud purp sc false a2 := rfl

/-! Lemmas about the grouped-fallback chunking loop. -/

theorem chunksFuel_join {α : Type} (k : Nat) :
    ∀ fuel l, List.length l ≤ fuel → (chunksFuel (α := α) k fuel l).flatten = l := by
  intro fuel
  induction fuel with
  | zero =>
    intro l hl
    rw [List.eq_nil_of_length_eq_zero (Nat.le_zero.1 hl)]
    rfl
  | succ f ih =>
    intro l hl
    cases l with
    | nil => rfl
    | cons x xs =>
      have hd : (xs.drop k).length ≤ f := by
        rw [List.length_drop]
        simp only [List.length_cons] at hl
        omega
      simp only [chunksFuel, List.flatten_cons, ih (xs.drop k) hd]
      rw [List.cons_append, List.take_append_drop]

theorem chunksFuel_ne_nil {α : Type} (k : Nat) :
    ∀ fuel l, ∀ g ∈ chunksFuel (α := α) k fuel l, g ≠ [] := by
  intro fuel
  induction fuel with
  | zero => intro l g hg; simp [chunksFuel] at hg
  | succ f ih =>
    intro l g hg
    cases l with
    | nil => simp [chunksFuel] at hg
    | cons x xs =>
      simp only [chunksFuel, List.mem_cons] at hg
      rcases hg with h | h
      · rw [h]; simp
      · exact ih (xs.drop k) g h

theorem chunksFuel_length_le {α : Type} (k : Nat) :
    ∀ fuel l, ∀ g ∈ chunksFuel (α := α) k fuel l, g.length ≤ k + 1 := by
  intro fuel
  induction fuel with
  | zero => intro l g hg; simp [chunksFuel] at hg
  | succ f ih =>
    intro l g hg
    cases l with
    | nil => simp [chunksFuel] at hg
    | cons x xs =>
      simp only [chunksFuel, List.mem_cons] at hg
      rcases hg with h | h
      · rw [h]
        simp only [List.length_cons, List.length_take]
        omega
      · exact ih (xs.drop k) g h

theorem chunksFuel_eq_nil_iff {α : Type} (k : Nat) :
    ∀ fuel l, List.length l ≤ fuel →
      (chunksFuel (α := α) k fuel l = [] ↔ l = []) := by
  intro fuel
  induction fuel with
  | zero =>
    intro l hl
    rw [List.eq_nil_of_length_eq_zero (Nat.le_zero.1 hl)]
    simp [chunksFuel]
  | succ f _ =>
    intro l _
    cases l with
    | nil => simp [chunksFuel]
    | cons x xs => simp [chunksFuel]

theorem chunksFuel_dropLast_length {α : Type} (k : Nat) :
    ∀ fuel l, List.length l ≤ fuel →
      ∀ g ∈ (chunksFuel (α := α) k fuel l).dropLast, g.length = k + 1 := by
  intro fuel
  induction fuel with
  | zero => intro l _ g hg; simp [chunksFuel] at hg
  | succ f ih =>
    intro l hl g hg
    cases l with
    | nil => simp [chunksFuel] at hg
    | cons x xs =>
      have hd : (xs.drop k).length ≤ f := by
        rw [List.length_drop]
        simp only [List.length_cons] at hl
        omega
      simp only [chunksFuel] at hg
      cases hrest : chunksFuel (α := α) k f (xs.drop k) with
      | nil => rw [hrest] at hg; simp at hg
      | cons r0 rtl =>
        rw [hrest, List.dropLast_cons₂, List.mem_cons] at hg
        have hxs : xs.drop k ≠ [] := by
          intro hnil
          rw [hnil] at hrest
          cases f with
          | zero => simp [chunksFuel] at hrest
          | succ f2 => simp [chunksFuel] at hrest
        have hklt : k < xs.length := by
          by_contra hle
          exact hxs (List.drop_eq_nil_of_le (Nat.not_lt.1 hle))
        rcases hg with h | h
        · rw [h]
          simp only [List.length_cons, List.length_take]
          omega
        · rw [← hrest] at h
          exact ih (xs.drop k) hd g h

theorem chunksFuel_length_mul {α : Type} (k : Nat) :
    ∀ fuel l, List.length l ≤ fuel →
      List.length l ≤ (chunksFuel (α := α) k fuel l).length * (k + 1) := by
  intro fuel
  induction fuel with
  | zero =>
    intro l hl
    omega
  | succ f ih =>
    intro l hl
    cases l with
    | nil => simp
    | cons x xs =>
      have hd : (xs.drop k).length ≤ f := by
        rw [List.length_drop]
        simp only [List.length_cons] at hl
        omega
      have hrec := ih (xs.drop k) hd
      rw [List.length_drop] at hrec
      simp only [chunksFuel, List.length_cons]
      rw [Nat.succ_mul]
      omega

/-! The same facts for chunks with an explicit positive group size. -/

theorem chunks_join {α : Type} (k : Nat) (l : List α) :
    (chunks k l).flatten = l :=
  chunksFuel_join (k - 1) l.length l (Nat.le_refl _)

theorem chunks_forall_ne_nil {α : Type} (k : Nat) (l : List α) :
    ∀ g ∈ chunks k l, g ≠ [] :=
  chunksFuel_ne_nil (k - 1) l.length l

theorem chunks_forall_length_le {α : Type} (k : Nat) (hk : 1 ≤ k) (l : List α) :
    ∀ g ∈ chunks k l, g.length ≤ k := by
  intro g hg
  have := chunksFuel_length_le (k - 1) l.length l g hg
  omega

theorem chunks_dropLast_length {α : Type} (k : Nat) (hk : 1 ≤ k) (l : List α) :
    ∀ g ∈ (chunks k l).dropLast, g.length = k := by
  intro g hg
  have := chunksFuel_dropLast_length (k - 1) l.length l (Nat.le_refl _) g hg
  omega

theorem chunks_length_mul {α : Type} (k : Nat) (hk : 1 ≤ k) (l : List α) :
    List.length l ≤ (chunks k l).length * k := by
  have := chunksFuel_length_mul (k - 1) l.length l (Nat.le_refl _)
  have hk1 : k - 1 + 1 = k := by omega
  rw [hk1] at this
  exact this

/-! Characterization of the assembled deck on the fallback path. -/

theorem fallbackContentSlides_of_gt (points : List Str) (aud : Str) (sc : Nat)
    (h : sc - 2 < points.length) :
    fallbackContentSlides points aud sc =
      (chunks (max 1 (points.length / (sc - 2))) points).map mkGroupSlide := by
  simp [fallbackContentSlides, Nat.not_le.2 h]

theorem buildSlides_fallback (points : List Str) (aud purp : Str) (sc : Nat)
    (ai : Option AIContent) (h : aiPointsOf ai = none) :
    buildSlides points aud purp sc ai =
      mkTitleSlide points aud purp ai ::
        fallbackContentSlides points aud sc ++
          [mkClosingSlide (genericClosingContent aud)] := by
  cases ai with
  | none => rfl
  | some a =>
    have hp : a.points = none := h
    simp [buildSlides, hp]

/-- Claim C4 counterexample: with 5 bullets and slide_count 4 (budget 2) the
code groups by max(1, 5 // 2) = 2, so the first content slide carries 2
bullets, not the ceil(5/2) = 3 the claim asserts the groups have. -/
theorem C4_counterexample :
    ((enhance_content_with_ai ("- a\n- b\n- c\n- d\n- e".data) ("t".data)
        ("p".data) 4 false none).get? 1).map Slide.content =
      some [['a'], ['b']] ∧
    (5 + 2 - 1) / 2 = 3 ∧
    ¬ (([['a'], ['b']] : List Str).length = (5 + 2 - 1) / 2) := by decide

/-- Claim C4 as amended: in the no-AI fallback path with more bullets than
budget = slide_count - 2, the bullets are partitioned order-preservingly
into consecutive groups of size max(1, len(bullets) // budget) — not
ceil(len/budget), with which the spec wrongly claims equivalence — with
only the last group possibly shorter; each group becomes one slide whose
content is the whole group and whose title is the first up-to-3 words of
the group's first bullet, capitalized. -/
theorem C4_grouping_amended
    (bp aud purp : Str) (sc : Nat) (pps : Nat) (gs : List (List Str))
    (_h3 : 3 ≤ sc) (_h15 : sc ≤ 15)
    (hgt : sc - 2 < (parseBullets bp).length)
    (hpps : pps = max 1 ((parseBullets bp).length / (sc - 2)))
    (hgs : gs = chunks pps (parseBullets bp)) :
    buildSlides (parseBullets bp) aud purp sc none =
      mkTitleSlide (parseBullets bp) aud purp none ::
        gs.map mkGroupSlide ++ [mkClosingSlide (genericClosingContent aud)] ∧
    gs.flatten = parseBullets bp ∧
    (∀ g ∈ gs, g ≠ [] ∧ g.length ≤ pps) ∧
    (∀ g ∈ gs.dropLast, g.length = pps) ∧
    (∀ g ∈ gs, mkGroupSlide g =
      { title := pyTitle (List.intercalate [' '] ((pyWords (g.headD [])).take 3))
        subtitle := none
        content := g
        notes := "Discuss these ".data ++ natDigits g.length ++
          " related points and their impact.".data }) := by
  have hk : 1 ≤ pps := by rw [hpps]; omega
  refine ⟨?_, ?_, ?_, ?_, ?_⟩
  · rw [buildSlides_fallback (parseBullets bp) aud purp sc none rfl,
      fallbackContentSlides_of_gt _ _ _ hgt, ← hpps, ← hgs]
  · rw [hgs]; exact chunks_join pps (parseBullets bp)
  · intro g hg
    rw [hgs] at hg
    exact ⟨chunks_forall_ne_nil pps (parseBullets bp) g hg,
      chunks_forall_length_le pps hk (parseBullets bp) g hg⟩
  · intro g hg
    rw [hgs] at hg
    exact chunks_dropLast_length pps hk (parseBullets bp) g hg
  · intro g _
    rfl

theorem C4_witness :
    (chunks 2 (parseBullets ("- a\n- b\n- c\n- d\n- e".data))).flatten =
      parseBullets ("- a\n- b\n- c\n- d\n- e".data) :=
  (C4_grouping_amended ("- a\n- b\n- c\n- d\n- e".data) ("t".data) ("p".data)
    4 2 (chunks 2 (parseBullets ("- a\n- b\n- c\n- d\n- e".data)))
    (by decide) (by decide) (by decide) (by decide) rfl).2.1

/-- Claim C10: in the grouped fallback path (AI content absent or unusable,
slide_count in 3..15, strictly more parsed bullets than slide_count - 2)
the returned deck has length exactly slide_count: floor-division group
sizing yields at least slide_count - 2 content slides, and over-length
sequences are truncated back to exactly slide_count. -/
theorem C10_grouped_fallback_exact_count
    (bp aud purp : Str) (sc : Nat) (aiE : Bool) (ai : Option AIContent)
    (h3 : 3 ≤ sc) (h15 : sc ≤ 15)
    (hai : aiPointsOf (if aiE then ai else none) = none)
    (hn : sc - 2 < (parseBullets bp).length) :
    (enhance_content_with_ai bp aud purp sc aiE ai).length = sc := by
  have hb : parseBullets bp ≠ [] := by
    intro he
    rw [he] at hn
    simp at hn
  rw [enhance_eq_limit bp aud purp sc aiE ai hb,
    buildSlides_fallback _ _ _ _ _ hai,
    fallbackContentSlides_of_gt _ _ _ hn]
  set n := (parseBullets bp).length with hnn
  set b := sc - 2 with hbb
  set pps := max 1 (n / b) with hpps
  have hbpos : 1 ≤ b := by omega
  have hdiv : 1 ≤ n / b := (Nat.one_le_div_iff (by omega)).2 (by omega)
  have hppseq : pps = n / b := by rw [hpps]; omega
  have hmul1 : b * pps ≤ n := by
    rw [hppseq, Nat.mul_comm]
    exact Nat.div_mul_le_self n b
  have hmul2 : n ≤ (chunks pps (parseBullets bp)).length * pps :=
    chunks_length_mul pps (by omega) (parseBullets bp)
  have hglen : b ≤ (chunks pps (parseBullets bp)).length := by
    have hchain : b * pps ≤ (chunks pps (parseBullets bp)).length * pps :=
      Nat.le_trans hmul1 hmul2
    exact Nat.le_of_mul_le_mul_right hchain (by omega)
  have hlen : sc ≤ (mkTitleSlide (parseBullets bp) aud purp
      (if aiE then ai else none) ::
        (chunks pps (parseBullets bp)).map mkGroupSlide ++
          [mkClosingSlide (genericClosingContent aud)]).length := by
    simp only [List.length_cons, List.length_append, List.length_map,
      List.length_singleton]
    omega
  by_cases hcase : sc <
      (mkTitleSlide (parseBullets bp) aud purp (if aiE then ai else none) ::
        (chunks pps (parseBullets bp)).map mkGroupSlide ++
          [mkClosingSlide (genericClosingContent aud)]).length
  · exact limitSlides_length_of_gt sc _ (by omega) hcase
  · rw [limitSlides_of_le sc _ (Nat.not_lt.1 hcase)]
    omega

theorem C10_witness :
    (enhance_content_with_ai ("- a\n- b\n- c\n- d\n- e".data) ("t".data)
      ("p".data) 4 false none).length = 4 :=
  C10_grouped_fallback_exact_count ("- a\n- b\n- c\n- d\n- e".data) ("t".data)
    ("p".data) 4 false none (by decide) (by decide) rfl (by decide)

/-! Structure of the assembled deck: head, last element, tail membership. -/

theorem getLast?_mem_of_eq {α : Type} {l : List α} {a : α}
    (h : l.getLast? = some a) : a ∈ l := by
  rcases List.mem_getLast?_eq_getLast (Option.mem_def.2 h) with ⟨hne, hEq⟩
  rw [hEq]
  exact List.getLast_mem hne

theorem limitSlides_getLast (sc : Nat) (l : List Slide) (h : l ≠ []) :
    (limitSlides sc l).getLast? = l.getLast? := by
  by_cases hgt : sc < l.length
  · rw [limitSlides_of_gt sc l hgt]
    cases hl : l.getLast? with
    | none => exact absurd (List.getLast?_isSome.2 h) (by simp [hl])
    | some a => simp [List.getLast?_concat]
  · rw [limitSlides_of_le sc l (Nat.not_lt.1 hgt)]

theorem limitSlides_cons_structure (sc : Nat) (t : Slide) (A : List Slide)
    (h1 : 1 ≤ sc) :
    ∃ rest, limitSlides sc (t :: A) = t :: rest ∧ ∀ s ∈ rest, s ∈ A := by
  by_cases hgt : sc < (t :: A).length
  · have hA : A ≠ [] := by
      intro he
      rw [he] at hgt
      simp at hgt
      omega
    refine ⟨A.take (sc - 2) ++ (t :: A).getLast?.toList,
      ?_, ?_⟩
    · rw [limitSlides_of_gt sc (t :: A) hgt]
      simp [List.take_succ_cons]
    · intro s hs
      rcases List.mem_append.1 hs with h | h
      · exact List.mem_of_mem_take h
      · cases hl : (t :: A).getLast? with
        | none =>
          rw [hl] at h
          simp at h
        | some a =>
          rw [hl] at h
          simp at h
          rw [h]
          cases A with
          | nil => exact absurd rfl hA
          | cons b B =>
            rw [List.getLast?_cons_cons] at hl
            exact getLast?_mem_of_eq hl
  · exact ⟨A, limitSlides_of_le sc (t :: A) (Nat.not_lt.1 hgt), fun s hs => hs⟩

theorem fallbackContentSlides_mem (points : List Str) (aud : Str) (sc : Nat) :
    ∀ s ∈ fallbackContentSlides points aud sc,
      s.content ≠ [] ∧ s.subtitle = none := by
  intro s hs
  unfold fallbackContentSlides at hs
  by_cases hle : points.length ≤ sc - 2
  · rw [if_pos hle] at hs
    rcases List.mem_map.1 hs with ⟨p, _, hp⟩
    rw [← hp]
    exact ⟨by simp [mkSingleBulletSlide], rfl⟩
  · rw [if_neg hle] at hs
    rcases List.mem_map.1 hs with ⟨g, hg, hp⟩
    rw [← hp]
    exact ⟨chunks_forall_ne_nil _ points g hg, rfl⟩

/-- AI branch of buildSlides, lines 175-197. -/
theorem buildSlides_ai (points : List Str) (aud purp : Str) (sc : Nat)
    (a : AIContent) (pts : List PointData) (hpts : a.points = some pts) :
    buildSlides points aud purp sc (some a) =
      mkTitleSlide points aud purp (some a) ::
        pts.map (mkPointSlide aud) ++
          [mkClosingSlide
            (match a.conclusion with
             | some c => c
             | none => genericClosingContent aud)] := by
  simp [buildSlides, hpts]

theorem buildSlides_tail_invariant (points : List Str) (aud purp : Str)
    (sc : Nat) (ai : Option AIContent)
    (hconc : aiConclusionOf ai ≠ some []) :
    ∃ A, buildSlides points aud purp sc ai =
        mkTitleSlide points aud purp ai :: A ∧
      A ≠ [] ∧ ∀ s ∈ A, s.content ≠ [] ∧ s.subtitle = none := by
  cases ai with
  | none =>
    refine ⟨fallbackContentSlides points aud sc ++
      [mkClosingSlide (genericClosingContent aud)], rfl, by simp, ?_⟩
    intro s hs
    rcases List.mem_append.1 hs with h | h
    · exact fallbackContentSlides_mem points aud sc s h
    · simp at h
      rw [h]
      exact ⟨by simp [mkClosingSlide, genericClosingContent], rfl⟩
  | some a =>
    cases hpts : a.points with
    | none =>
      refine ⟨fallbackContentSlides points aud sc ++
        [mkClosingSlide (genericClosingContent aud)], by simp [buildSlides, hpts],
        by simp, ?_⟩
      intro s hs
      rcases List.mem_append.1 hs with h | h
      · exact fallbackContentSlides_mem points aud sc s h
      · simp at h
        rw [h]
        exact ⟨by simp [mkClosingSlide, genericClosingContent], rfl⟩
    | some pts =>
      refine ⟨pts.map (mkPointSlide aud) ++
        [mkClosingSlide
          (match a.conclusion with
           | some c => c
           | none => genericClosingContent aud)],
        buildSlides_ai points aud purp sc a pts hpts, by simp, ?_⟩
      intro s hs
      rcases List.mem_append.1 hs with h | h
      · rcases List.mem_map.1 h with ⟨pd, _, hp⟩
        rw [← hp]
        exact ⟨by simp [mkPointSlide], rfl⟩
      · simp at h
        rw [h]
        refine ⟨?_, rfl⟩
        cases hc : a.conclusion with
        | none => simp [mkClosingSlide, hc, genericClosingContent]
        | some c =>
          have hcne : c ≠ [] := by
            intro he
            apply hconc
            show aiConclusionOf (some a) = some []
            show a.conclusion = some []
            rw [hc, he]
          simp [mkClosingSlide, hc]
          exact hcne

/-- Claim C2 counterexample: with AI content whose points list is present
and whose conclusion is present but EMPTY, the returned deck's final slide
has an empty content sequence, contradicting the claimed invariant. -/
theorem C2_counterexample :
    (enhance_content_with_ai ("- a".data) ("t".data) ("p".data) 5 true
        (some { title := some ("T".data), points := some [],
                conclusion := some [] })).length = 2 ∧
    ((enhance_content_with_ai ("- a".data) ("t".data) ("p".data) 5 true
        (some { title := some ("T".data), points := some [],
                conclusion := some [] })).getLast?).map Slide.content =
      some [] := by decide

/-- Claim C2 as amended: for every deck returned by enhance_content_with_ai
(non-empty bullet list, slide_count in 3..15, any AI content whose
conclusion field — if used — is not an empty list), slide 0 has empty
content and a subtitle, and every later slide has non-empty content and no
subtitle.  The unamended claim fails exactly when the AI conclusion is
present but empty, in which case the closing slide's content is empty. -/
theorem C2_slide_invariants_amended
    (bp aud purp : Str) (sc : Nat) (aiE : Bool) (ai : Option AIContent)
    (hb : parseBullets bp ≠ []) (h3 : 3 ≤ sc) (h15 : sc ≤ 15)
    (hconc : aiConclusionOf (if aiE then ai else none) ≠ some []) :
    ∃ s0 rest, enhance_content_with_ai bp aud purp sc aiE ai = s0 :: rest ∧
      s0.content = [] ∧ s0.subtitle.isSome ∧
      ∀ s ∈ rest, s.content ≠ [] ∧ s.subtitle = none := by
  rcases buildSlides_tail_invariant (parseBullets bp) aud purp sc
    (if aiE then ai else none) hconc with ⟨A, hbuild, _, hA⟩
  rcases limitSlides_cons_structure sc
    (mkTitleSlide (parseBullets bp) aud purp (if aiE then ai else none)) A
    (by omega) with ⟨rest, hlim, hrest⟩
  refine ⟨mkTitleSlide (parseBullets bp) aud purp (if aiE then ai else none),
    rest, ?_, rfl, rfl, ?_⟩
  · rw [enhance_eq_limit bp aud purp sc aiE ai hb, hbuild, hlim]
  · intro s hs
    exact hA s (hrest s hs)

theorem C2_witness :
    ∃ s0 rest,
      enhance_content_with_ai ("- a".data) ("t".data) ("p".data) 5 true
        (some { title := some ("T".data),
                points := some [{ main_point := some ("A.".data),
                                  sub_points := none, speaker_notes := none }],
                conclusion := some ["Go".data] }) = s0 :: rest ∧
      s0.content = [] ∧ s0.subtitle.isSome ∧
      ∀ s ∈ rest, s.content ≠ [] ∧ s.subtitle = none :=
  C2_slide_invariants_amended ("- a".data) ("t".data) ("p".data) 5 true
    (some { title := some ("T".data),
            points := some [{ main_point := some ("A.".data),
                              sub_points := none, speaker_notes := none }],
            conclusion := some ["Go".data] })
    (by decide) (by decide) (by decide) (by decide)

/-- Claim C5 counterexample: AI content with non-empty points and a
PRESENT but EMPTY conclusion list: the code keeps the empty list as the
closing slide's content instead of substituting the generic closing
content, because line 186 only tests presence and list-ness, not
non-emptiness. -/
theorem C5_counterexample :
    ((enhance_content_with_ai ("- a".data) ("t".data) ("p".data) 5 true
        (some { title := none,
                points := some [{ main_point := some ("A.".data),
                                  sub_points := none, speaker_notes := none }],
                conclusion := some [] })).getLast?).map Slide.content =
      some [] ∧
    (some [] : Option (List Str)) ≠ some (genericClosingContent ("t".data)) := by
  decide

/-- Claim C5 as amended: when AI content with a non-empty points list is
used, the appended closing slide's content equals the AI conclusion
sequence whenever that field is PRESENT (decoded as a list, even an empty
one — the code does not test non-emptiness), and equals the fixed generic
closing content only when the field is absent; a missing conclusion field
never causes a failure. -/
theorem C5_conclusion_amended
    (bp aud purp : Str) (sc : Nat) (aiE : Bool) (ai : Option AIContent)
    (a : AIContent) (pts : List PointData)
    (hb : parseBullets bp ≠ []) (_h3 : 3 ≤ sc) (_h15 : sc ≤ 15)
    (hai : (if aiE then ai else none) = some a)
    (hpts : a.points = some pts) :
    (enhance_content_with_ai bp aud purp sc aiE ai).getLast? =
      some (mkClosingSlide
        (match a.conclusion with
         | some c => c
         | none => genericClosingContent aud)) := by
  rw [enhance_eq_limit bp aud purp sc aiE ai hb, hai]
  have hb2 := buildSlides_ai (parseBullets bp) aud purp sc a pts hpts
  rw [limitSlides_getLast sc _ (by rw [hb2]; simp), hb2]
  exact List.getLast?_concat _

theorem C5_witness :
    (enhance_content_with_ai ("- a".data) ("t".data) ("p".data) 5 true
        (some { title := none,
                points := some [{ main_point := some ("A.".data),
                                  sub_points := none, speaker_notes := none }],
                conclusion := some ["Book now".data] })).getLast? =
      some (mkClosingSlide ["Book now".data]) :=
  C5_conclusion_amended ("- a".data) ("t".data) ("p".data) 5 true
    (some { title := none,
            points := some [{ main_point := some ("A.".data),
                              sub_points := none, speaker_notes := none }],
            conclusion := some ["Book now".data] })
    { title := none,
      points := some [{ main_point := some ("A.".data),
                        sub_points := none, speaker_notes := none }],
      conclusion := some ["Book now".data] }
    [{ main_point := some ("A.".data), sub_points := none,
       speaker_notes := none }]
    (by decide) (by decide) (by decide) rfl rfl

/-! BulletParser facts. -/

theorem filterMap_ite_eq_filter_map {α β : Type} (p : α → Bool) (f : α → β) :
    ∀ l : List α,
      l.filterMap (fun x => if p x then some (f x) else none) =
        (l.filter p).map f := by
  intro l
  induction l with
  | nil => rfl
  | cons x xs ih =>
    by_cases hx : p x
    · simp [List.filterMap_cons, List.filter_cons, hx, ih]
    · simp [List.filterMap_cons, List.filter_cons, hx, ih]

/-- Claim C3 counterexample: the line consisting of a bare dash qualifies
and parses to the EMPTY bullet (the claim says every output bullet is
non-empty), and a doubled dash marker is stripped entirely — Python
lstrip removes every leading dash and space, not one marker plus at most
one space, so the trimmed line starting with two dashes does not keep the
second dash. -/
theorem C3_counterexample :
    parseBullets ("-".data) = [[]] ∧
    parseBullets ("-- hello".data) = ["hello".data] ∧
    "hello".data ≠ "- hello".data := by decide

/-- Claim C3 as amended: for every raw multi-line input, the bullet parser
outputs one bullet per qualifying line (trimmed form non-empty and
starting with a dash), in input order and no others, so the output length
equals the count of qualifying lines; each output bullet is the trimmed
line with ALL leading dash and space characters removed (not just the
marker and one following space), and an output bullet can therefore be
the empty string. -/
theorem C3_bullet_lines_amended (text : Str) :
    parseBullets text =
      ((splitOnChar '\n' text).filter qualifiesAsBullet).map
        (fun l => lstripDashSpace (pyStrip l)) ∧
    (parseBullets text).length =
      ((splitOnChar '\n' text).filter qualifiesAsBullet).length := by
  have h := filterMap_ite_eq_filter_map qualifiesAsBullet
    (fun l => lstripDashSpace (pyStrip l)) (splitOnChar '\n' text)
  refine ⟨h, ?_⟩
  rw [show parseBullets text = (splitOnChar '\n' text).filterMap
    (fun pt => if qualifiesAsBullet pt
      then some (lstripDashSpace (pyStrip pt)) else none) from rfl, h]
  exact List.length_map _ _

/-- Claim C8: when no line's trimmed form starts with a dash, the pipeline
produces no deck: enhance_content_with_ai returns the empty sequence, and
generate_presentation returns the user-facing error message with a null
file path without ever invoking the rendering collaborator. -/
theorem C8_empty_bullets_error
    (previewOf : List Slide → Str)
    (renderDeck : Str → List Slide → Nat × Nat × Nat → Except Str Str)
    (bp aud purp template : Str) (sc : Nat) (use_ai : Bool)
    (ai : Option AIContent) (hex : Str)
    (hq : ∀ l ∈ splitOnChar '\n' bp, (pyStrip l).headD ' ' ≠ '-') :
    enhance_content_with_ai bp aud purp sc use_ai ai = [] ∧
    generate_presentation previewOf renderDeck bp aud purp template sc
        use_ai ai hex =
      { message := bulletErrorMessage, filePath := none,
        renderInvoked := false } := by
  have hpb : parseBullets bp = [] := by
    rw [show parseBullets bp = (splitOnChar '\n' bp).filterMap
      (fun pt => if qualifiesAsBullet pt
        then some (lstripDashSpace (pyStrip pt)) else none) from rfl]
    rw [List.filterMap_eq_nil_iff]
    intro l hl
    have hql : qualifiesAsBullet l = false := by
      have hh := hq l hl
      simp only [qualifiesAsBullet]
      cases hp : pyStrip l with
      | nil => simp
      | cons a t =>
        rw [hp] at hh
        simp only [List.headD_cons] at hh
        simp [hh]
    rw [hql]
    simp
  have henh : enhance_content_with_ai bp aud purp sc use_ai ai = [] := by
    simp [enhance_content_with_ai, hpb]
  refine ⟨henh, ?_⟩
  simp [generate_presentation, henh]

theorem C8_witness :
    enhance_content_with_ai ("hello\nworld".data) ("t".data) ("p".data) 5
      true none = [] ∧
    generate_presentation (fun _ => []) (fun _ _ _ => Except.ok [])
        ("hello\nworld".data) ("t".data) ("p".data) ("ucl-blue".data) 5
        true none ("#000000".data) =
      { message := bulletErrorMessage, filePath := none,
        renderInvoked := false } :=
  C8_empty_bullets_error (fun _ => []) (fun _ _ _ => Except.ok [])
    ("hello\nworld".data) ("t".data) ("p".data) ("ucl-blue".data) 5 true
    none ("#000000".data) (by decide)

/-! JSON model for the ResponseExtractor (parse_ai_response, lines 132-144).
The decoder models Python json.loads on the JSON fragment the pipeline
needs: objects, arrays, strings with escapes, integer numerals, booleans
and null.  Floating point numerals are outside the model (json.loads
accepts them; no claim here depends on them). -/

inductive Json where
  | null : Json
  | bool (b : Bool) : Json
  | num (n : Int) : Json
  | str (s : Str) : Json
  | arr (elems : List Json) : Json
  | obj (members : List (Str × Json)) : Json

/-- Serialization of one string character: quote and backslash get a
two-character escape, control characters a \u escape, everything else is
verbatim (as json.dumps would produce with ensure_ascii disabled). -/
def hexDigitChar (n : Nat) : Char :=
  if n < 10 then Char.ofNat (48 + n) else Char.ofNat (87 + n)

def renderStringChar (c : Char) : Str :=
  if c = '"' then ['\\', '"']
  else if c = '\\' then ['\\', '\\']
  else if c.toNat < 32 then
    ['\\', 'u', '0', '0', hexDigitChar (c.toNat / 16), hexDigitChar (c.toNat % 16)]
  else [c]

def escapeChars (s : Str) : Str := (s.map renderStringChar).flatten

def renderString (s : Str) : Str := '"' :: escapeChars s ++ ['"']

def renderInt (n : Int) : Str :=
  if n < 0 then '-' :: natDigits n.natAbs else natDigits n.toNat

mutual
def render : Json → Str
  | Json.null => "null".data
  | Json.bool true => "true".data
  | Json.bool false => "false".data
  | Json.num n => renderInt n
  | Json.str s => renderString s
  | Json.arr es => '[' :: renderElems es ++ [']']
  | Json.obj ms => '{' :: renderMembers ms ++ ['}']
def renderElems : List Json → Str
  | [] => []
  | [j] => render j
  | j :: j2 :: rest => render j ++ ',' :: renderElems (j2 :: rest)
def renderMembers : List (Str × Json) → Str
  | [] => []
  | [(k, v)] => renderString k ++ ':' :: render v
  | (k, v) :: m2 :: rest =>
    renderString k ++ ':' :: render v ++ ',' :: renderMembers (m2 :: rest)
end

/-! The decoder. -/

def isJsonWs (c : Char) : Bool :=
  c = ' ' || c = '\t' || c = '\n' || c = '\r'

def skipWs (s : Str) : Str := s.dropWhile isJsonWs

def escapeCharFor (e : Char) : Option Char :=
  if e = '"' then some '"'
  else if e = '\\' then some '\\'
  else if e = '/' then some '/'
  else if e = 'b' then some (Char.ofNat 8)
  else if e = 'f' then some (Char.ofNat 12)
  else if e = 'n' then some '\n'
  else if e = 'r' then some '\r'
  else if e = 't' then some '\t'
  else none

/-- One step of JSON string scanning: the closing quote, one decoded
character (possibly from an escape sequence), or a lexical error. -/
inductive StrTok where
  | close (r : Str)
  | chr (c : Char) (r : Str)
  | bad

/-- Decode a four-hex-digit unicode escape body. -/
def stringTokU (r2 : Str) : StrTok :=
  match r2 with
  | h1 :: h2 :: h3 :: h4 :: r3 =>
    match hexDigitVal h1, hexDigitVal h2, hexDigitVal h3, hexDigitVal h4 with
    | some a, some b, some c2, some d =>
      StrTok.chr (Char.ofNat (4096 * a + 256 * b + 16 * c2 + d)) r3
    | _, _, _, _ => StrTok.bad
  | _ => StrTok.bad

/-- Decode the character after a backslash. -/
def stringTokEsc (r : Str) : StrTok :=
  match r with
  | [] => StrTok.bad
  | e :: r2 =>
    if e = 'u' then stringTokU r2
    else
      match escapeCharFor e with
      | some c2 => StrTok.chr c2 r2
      | none => StrTok.bad

def stringTokCons (c : Char) (r : Str) : StrTok :=
  if c = '"' then StrTok.close r
  else if c = '\\' then stringTokEsc r
  else if c.toNat < 32 then StrTok.bad
  else StrTok.chr c r

def stringTok : Str → StrTok
  | [] => StrTok.bad
  | c :: r => stringTokCons c r

/-- Body of a JSON string after the opening quote: returns the decoded
characters and the remainder after the closing quote.  Unescaped control
characters are rejected as in strict json.loads.  Fuel-based (each token
consumes at least one character, so the input length is enough fuel). -/
def parseStringBodyFuel : Nat → Str → Option (Str × Str)
  | 0, _ => none
  | f + 1, s =>
    match stringTok s with
    | StrTok.close r => some ([], r)
    | StrTok.chr c r => (parseStringBodyFuel f r).map fun p => (c :: p.1, p.2)
    | StrTok.bad => none

def parseStringBody (s : Str) : Option (Str × Str) :=
  parseStringBodyFuel s.length s

def digitVal (c : Char) : Nat := c.toNat - 48

def digitsToNat (ds : Str) : Nat := ds.foldl (fun a c => 10 * a + digitVal c) 0

def parseNatDigits (s : Str) : Option (Nat × Str) :=
  let ds := s.takeWhile Char.isDigit
  if ds.isEmpty then none
  else some (digitsToNat ds, s.dropWhile Char.isDigit)

def expectChars : Str → Str → Option Str
  | [], s => some s
  | _ :: _, [] => none
  | e :: es, c :: s => if c = e then expectChars es s else none

mutual
def parseValue : Nat → Str → Option (Json × Str)
  | 0, _ => none
  | f + 1, s =>
    match skipWs s with
    | [] => none
    | c :: r =>
      if c = '{' then
        if (skipWs r).headD ' ' = '}' then some (Json.obj [], (skipWs r).tail)
        else (parseMembers f (skipWs r)).map fun p => (Json.obj p.1, p.2)
      else if c = '[' then
        if (skipWs r).headD ' ' = ']' then some (Json.arr [], (skipWs r).tail)
        else (parseElems f (skipWs r)).map fun p => (Json.arr p.1, p.2)
      else if c = '"' then
        (parseStringBody r).map fun p => (Json.str p.1, p.2)
      else if c = 'n' then
        (expectChars ['u', 'l', 'l'] r).map fun r2 => (Json.null, r2)
      else if c = 't' then
        (expectChars ['r', 'u', 'e'] r).map fun r2 => (Json.bool true, r2)
      else if c = 'f' then
        (expectChars ['a', 'l', 's', 'e'] r).map fun r2 => (Json.bool false, r2)
      else if c = '-' then
        (parseNatDigits r).map fun p => (Json.num (-(p.1 : Int)), p.2)
      else if c.isDigit then
        (parseNatDigits (c :: r)).map fun p => (Json.num (p.1 : Int), p.2)
      else none
def parseElems : Nat → Str → Option (List Json × Str)
  | 0, _ => none
  | f + 1, s =>
    match parseValue f s with
    | none => none
    | some (v, r) =>
      match skipWs r with
      | ',' :: r2 => (parseElems f r2).map fun p => (v :: p.1, p.2)
      | ']' :: r2 => some ([v], r2)
      | _ => none
def parseMembers : Nat → Str → Option (List (Str × Json) × Str)
  | 0, _ => none
  | f + 1, s =>
    match skipWs s with
    | '"' :: r =>
      match parseStringBody r with
      | none => none
      | some (k, r2) =>
        match skipWs r2 with
        | ':' :: r3 =>
          match parseValue f r3 with
          | none => none
          | some (v, r4) =>
            match skipWs r4 with
            | ',' :: r5 => (parseMembers f r5).map fun p => ((k, v) :: p.1, p.2)
            | '}' :: r5 => some ([(k, v)], r5)
            | _ => none
        | _ => none
    | _ => none
end

/-- Decode of a complete JSON document (json.loads): parse one value and
require that only whitespace remains. -/
def jsonParseComplete (s : Str) : Option Json :=
  match parseValue (s.length + 1) s with
  | some (j, r) => if (skipWs r).isEmpty then some j else none
  | none => none

/-- Span selected by re.search of a greedy brace group (line 135): from the
first opening brace to the LAST closing brace of the whole text; no match
when there is no closing brace after the first opening brace. -/
def extractJsonSpan (s : Str) : Option Str :=
  match s.dropWhile (fun c => c != '{') with
  | [] => none
  | c :: r =>
    match ((c :: r).reverse.dropWhile (fun d => d != '}')) with
    | [] => none
    | d :: q => some ((d :: q).reverse)

/-- parse_ai_response, lines 132-144: extract the greedy brace span and
decode it; any failure (no span, undecodable span) yields None instead of
an exception — the model is a total function into Option. -/
def parse_ai_response (s : Str) : Option Json :=
  match extractJsonSpan s with
  | some span => jsonParseComplete span
  | none => none

/-- Whether the greedy brace regex matches at all: some closing brace
strictly after the first opening brace. -/
def hasBraceSpan (s : Str) : Bool :=
  match s.dropWhile (fun c => c != '{') with
  | [] => false
  | _ :: r => r.contains '}'

/-! Decimal digits: rendering and parsing are inverse. -/

theorem digitChar_isDigit (n : Nat) : (digitChar n).isDigit = true := by
  have h : ∀ m, m < 10 → (Char.ofNat (48 + m)).isDigit = true := by decide
  exact h (n % 10) (Nat.mod_lt n (by omega))

theorem digitVal_digitChar (n : Nat) (h : n < 10) :
    digitVal (digitChar n) = n := by
  have hall : ∀ m, m < 10 → digitVal (digitChar m) = m := by decide
  exact hall n h

theorem natDigitsFuel_all_digits :
    ∀ fuel n, ∀ c ∈ natDigitsFuel fuel n, c.isDigit = true := by
  intro fuel
  induction fuel with
  | zero => intro n c hc; simp [natDigitsFuel] at hc
  | succ f ih =>
    intro n c hc
    by_cases h10 : n < 10
    · rw [natDigitsFuel, if_pos h10] at hc
      simp at hc
      rw [hc]
      exact digitChar_isDigit n
    · rw [natDigitsFuel, if_neg h10] at hc
      rcases List.mem_append.1 hc with h | h
      · exact ih (n / 10) c h
      · simp at h
        rw [h]
        exact digitChar_isDigit (n % 10)

theorem natDigitsFuel_ne_nil (fuel n : Nat) (h : 0 < fuel) :
    natDigitsFuel fuel n ≠ [] := by
  cases fuel with
  | zero => omega
  | succ f =>
    by_cases h10 : n < 10
    · rw [natDigitsFuel, if_pos h10]
      simp
    · rw [natDigitsFuel, if_neg h10]
      simp

theorem digitsToNat_append_one (xs : Str) (c : Char) :
    digitsToNat (xs ++ [c]) = 10 * digitsToNat xs + digitVal c := by
  simp [digitsToNat, List.foldl_append]

theorem digitsToNat_natDigitsFuel :
    ∀ fuel n, n < fuel → digitsToNat (natDigitsFuel fuel n) = n := by
  intro fuel
  induction fuel with
  | zero => intro n h; omega
  | succ f ih =>
    intro n h
    by_cases h10 : n < 10
    · rw [natDigitsFuel, if_pos h10]
      show digitsToNat ([] ++ [digitChar n]) = n
      rw [digitsToNat_append_one, digitVal_digitChar n h10]
      simp [digitsToNat]
    · rw [natDigitsFuel, if_neg h10]
      rw [digitsToNat_append_one]
      have hdiv : n / 10 < f := by
        have h1 : n / 10 < n := Nat.div_lt_self (by omega) (by omega)
        omega
      rw [ih (n / 10) hdiv, digitVal_digitChar (n % 10) (Nat.mod_lt n (by omega))]
      omega

theorem natDigits_all_digits (n : Nat) : ∀ c ∈ natDigits n, c.isDigit = true :=
  natDigitsFuel_all_digits (n + 1) n

theorem natDigits_ne_nil (n : Nat) : natDigits n ≠ [] :=
  natDigitsFuel_ne_nil (n + 1) n (by omega)

theorem digitsToNat_natDigits (n : Nat) : digitsToNat (natDigits n) = n :=
  digitsToNat_natDigitsFuel (n + 1) n (by omega)

/-! takeWhile and dropWhile over a block that wholly satisfies the
predicate. -/

theorem takeWhile_append_all {α : Type} (p : α → Bool) :
    ∀ l r : List α, (∀ c ∈ l, p c = true) →
      (l ++ r).takeWhile p = l ++ r.takeWhile p := by
  intro l
  induction l with
  | nil => intro r _; rfl
  | cons x xs ih =>
    intro r h
    have hx : p x = true := h x (by simp)
    simp only [List.cons_append, List.takeWhile_cons, hx, if_pos]
    rw [ih r (fun c hc => h c (by simp [hc]))]

theorem dropWhile_append_all {α : Type} (p : α → Bool) :
    ∀ l r : List α, (∀ c ∈ l, p c = true) →
      (l ++ r).dropWhile p = r.dropWhile p := by
  intro l
  induction l with
  | nil => intro r _; rfl
  | cons x xs ih =>
    intro r h
    have hx : p x = true := h x (by simp)
    simp only [List.cons_append, List.dropWhile_cons, hx, if_pos]
    rw [ih r (fun c hc => h c (by simp [hc]))]

/-- Head shape that stops a digit scan. -/
def digitFreeHead : Str → Bool
  | [] => true
  | c :: _ => !c.isDigit

theorem takeWhile_isDigit_nil (r : Str) (h : digitFreeHead r = true) :
    r.takeWhile Char.isDigit = [] := by
  cases r with
  | nil => rfl
  | cons c t =>
    simp [digitFreeHead] at h
    simp [List.takeWhile_cons, h]

theorem dropWhile_isDigit_id (r : Str) (h : digitFreeHead r = true) :
    r.dropWhile Char.isDigit = r := by
  cases r with
  | nil => rfl
  | cons c t =>
    simp [digitFreeHead] at h
    simp [List.dropWhile_cons, h]

theorem parseNatDigits_natDigits (n : Nat) (rest : Str)
    (h : digitFreeHead rest = true) :
    parseNatDigits (natDigits n ++ rest) = some (n, rest) := by
  unfold parseNatDigits
  rw [takeWhile_append_all Char.isDigit (natDigits n) rest (natDigits_all_digits n),
    takeWhile_isDigit_nil rest h, List.append_nil,
    dropWhile_append_all Char.isDigit (natDigits n) rest (natDigits_all_digits n),
    dropWhile_isDigit_id rest h]
  have hne : (natDigits n).isEmpty = false := by
    cases hd : natDigits n with
    | nil => exact absurd hd (natDigits_ne_nil n)
    | cons a l => rfl
  simp [hne, digitsToNat_natDigits]

/-! String escaping and the string scanner are inverse. -/

theorem hexDigitVal_hexDigitChar (m : Nat) (h : m < 16) :
    hexDigitVal (hexDigitChar m) = some m := by
  have hall : ∀ k, k < 16 → hexDigitVal (hexDigitChar k) = some k := by decide
  exact hall m h

theorem renderStringChar_length_pos (c : Char) :
    1 ≤ (renderStringChar c).length := by
  unfold renderStringChar
  split
  · simp
  · split
    · simp
    · split
      · simp
      · simp

theorem stringTok_escape (c : Char) (X : Str) :
    stringTok (renderStringChar c ++ X) = StrTok.chr c X := by
  unfold renderStringChar
  by_cases hq : c = '"'
  · rw [if_pos hq, hq]
    rfl
  · rw [if_neg hq]
    by_cases hb : c = '\\'
    · rw [if_pos hb, hb]
      rfl
    · rw [if_neg hb]
      by_cases hc : c.toNat < 32
      · rw [if_pos hc]
        show stringTokU ('0' :: '0' :: hexDigitChar (c.toNat / 16) ::
          hexDigitChar (c.toNat % 16) :: X) = StrTok.chr c X
        rw [stringTokU]
        rw [show hexDigitVal '0' = some 0 from rfl,
          hexDigitVal_hexDigitChar (c.toNat / 16) (by omega),
          hexDigitVal_hexDigitChar (c.toNat % 16) (by omega)]
        show StrTok.chr (Char.ofNat (4096 * 0 + 256 * 0 +
          16 * (c.toNat / 16) + c.toNat % 16)) X = StrTok.chr c X
        have hv : 4096 * 0 + 256 * 0 + 16 * (c.toNat / 16) + c.toNat % 16 =
            c.toNat := by omega
        rw [hv, Char.ofNat_toNat]
      · rw [if_neg hc]
        show stringTokCons c X = StrTok.chr c X
        unfold stringTokCons
        rw [if_neg hq, if_neg hb, if_neg hc]

theorem parseStringBodyFuel_escape :
    ∀ (s : Str) (f : Nat) (rest : Str), (escapeChars s).length + 1 ≤ f →
      parseStringBodyFuel f (escapeChars s ++ '"' :: rest) = some (s, rest) := by
  intro s
  induction s with
  | nil =>
    intro f rest hf
    cases f with
    | zero => omega
    | succ f2 =>
      rw [show escapeChars [] = [] from rfl, List.nil_append,
        parseStringBodyFuel,
        show stringTok ('"' :: rest) = StrTok.close rest from rfl]
  | cons c s2 ih =>
    intro f rest hf
    have he : escapeChars (c :: s2) = renderStringChar c ++ escapeChars s2 := by
      simp [escapeChars]
    cases f with
    | zero => omega
    | succ f2 =>
      rw [he] at hf
      rw [List.length_append] at hf
      have hlen := renderStringChar_length_pos c
      rw [he, List.append_assoc, parseStringBodyFuel,
        stringTok_escape c (escapeChars s2 ++ '"' :: rest)]
      show (parseStringBodyFuel f2 (escapeChars s2 ++ '"' :: rest)).map
        (fun p => (c :: p.1, p.2)) = some (c :: s2, rest)
      rw [ih f2 rest (by omega)]
      rfl

theorem parseStringBody_escape (s rest : Str) :
    parseStringBody (escapeChars s ++ '"' :: rest) = some (s, rest) := by
  unfold parseStringBody
  apply parseStringBodyFuel_escape
  rw [List.length_append]
  simp

/-! Head characters of rendered JSON values. -/

def goodHead (c : Char) : Bool :=
  c = '{' || c = '[' || c = '"' || c = 'n' || c = 't' || c = 'f' || c = '-' ||
    c.isDigit

theorem isDigit_ne_lit (c x : Char) (hx : x.isDigit = false)
    (h : c.isDigit = true) : c ≠ x := by
  intro he
  rw [he] at h
  exact absurd h (by simp [hx])

theorem isJsonWs_false_of_isDigit (c : Char) (h : c.isDigit = true) :
    isJsonWs c = false := by
  have h1 : c ≠ ' ' := isDigit_ne_lit c ' ' (by decide) h
  have h2 : c ≠ '\t' := isDigit_ne_lit c '\t' (by decide) h
  have h3 : c ≠ '\n' := isDigit_ne_lit c '\n' (by decide) h
  have h4 : c ≠ '\r' := isDigit_ne_lit c '\r' (by decide) h
  simp [isJsonWs, h1, h2, h3, h4]

theorem goodHead_not_ws (c : Char) (h : goodHead c = true) :
    isJsonWs c = false := by
  simp only [goodHead, Bool.or_eq_true, decide_eq_true_eq] at h
  rcases h with (((((((h | h) | h) | h) | h) | h) | h) | h)
  all_goals first
  | (rw [h]; decide)
  | (exact isJsonWs_false_of_isDigit c h)

theorem goodHead_ne_close (c : Char) (h : goodHead c = true) :
    c ≠ ']' ∧ c ≠ '}' := by
  simp only [goodHead, Bool.or_eq_true, decide_eq_true_eq] at h
  rcases h with (((((((h | h) | h) | h) | h) | h) | h) | h)
  all_goals first
  | (rw [h]; exact ⟨by decide, by decide⟩)
  | (exact ⟨isDigit_ne_lit c ']' (by decide) h,
      isDigit_ne_lit c '}' (by decide) h⟩)

theorem skipWs_cons (c : Char) (r : Str) (h : isJsonWs c = false) :
    skipWs (c :: r) = c :: r := by
  simp [skipWs, List.dropWhile_cons, h]

theorem renderHead (j : Json) :
    ∃ c t, render j = c :: t ∧ goodHead c = true := by
  cases j with
  | null => exact ⟨'n', ['u', 'l', 'l'], by simp [render], by decide⟩
  | bool b =>
    cases b with
    | true => exact ⟨'t', ['r', 'u', 'e'], by simp [render], by decide⟩
    | false => exact ⟨'f', ['a', 'l', 's', 'e'], by simp [render], by decide⟩
  | num n =>
    by_cases hneg : n < 0
    · exact ⟨'-', natDigits n.natAbs, by simp [render, renderInt, hneg],
        by decide⟩
    · rcases hd : natDigits n.toNat with _ | ⟨d, ds⟩
      · exact absurd hd (natDigits_ne_nil _)
      · refine ⟨d, ds, by simp [render, renderInt, hneg, hd], ?_⟩
        have hdig : d.isDigit = true :=
          natDigits_all_digits n.toNat d (by rw [hd]; simp)
        simp [goodHead, hdig]
  | str s =>
    exact ⟨'"', escapeChars s ++ ['"'], by simp [render, renderString],
      by decide⟩
  | arr es => exact ⟨'[', renderElems es ++ [']'], by simp [render], by decide⟩
  | obj ms => exact ⟨'{', renderMembers ms ++ ['}'], by simp [render], by decide⟩

theorem render_ne_nil (j : Json) : render j ≠ [] := by
  rcases renderHead j with ⟨c, t, he, _⟩
  rw [he]
  simp

theorem render_length_pos (j : Json) : 1 ≤ (render j).length := by
  rcases renderHead j with ⟨c, t, he, _⟩
  rw [he]
  simp

theorem renderElems_cons (e : Json) (tl : List Json) :
    ∃ t, renderElems (e :: tl) = render e ++ t := by
  cases tl with
  | nil => exact ⟨[], by simp [renderElems]⟩
  | cons e2 tl2 =>
    exact ⟨',' :: renderElems (e2 :: tl2), by simp [renderElems]⟩

theorem renderMembers_cons (k : Str) (v : Json) (tl : List (Str × Json)) :
    ∃ t, renderMembers ((k, v) :: tl) =
      (renderString k ++ ':' :: render v) ++ t := by
  cases tl with
  | nil => exact ⟨[], by simp [renderMembers]⟩
  | cons m2 tl2 =>
    exact ⟨',' :: renderMembers (m2 :: tl2),
      by simp [renderMembers, List.append_assoc]⟩

/-! The decoder inverts the serializer: one simultaneous induction on the
parser fuel for values, array elements, and object members. -/

theorem parseRoundAux : ∀ f : Nat,
    (∀ (j : Json) (rest : Str), (render j).length ≤ f →
      digitFreeHead rest = true →
      parseValue f (render j ++ rest) = some (j, rest)) ∧
    (∀ (es : List Json) (rest : Str), es ≠ [] → (renderElems es).length < f →
      parseElems f (renderElems es ++ ']' :: rest) = some (es, rest)) ∧
    (∀ (ms : List (Str × Json)) (rest : Str), ms ≠ [] →
      (renderMembers ms).length < f →
      parseMembers f (renderMembers ms ++ '}' :: rest) = some (ms, rest)) := by
  intro f
  induction f with
  | zero =>
    refine ⟨?_, ?_, ?_⟩
    · intro j rest hle _
      have := render_length_pos j
      omega
    · intro es rest _ hlt
      omega
    · intro ms rest _ hlt
      omega
  | succ f ih =>
    obtain ⟨ihV, ihE, ihM⟩ := ih
    refine ⟨?_, ?_, ?_⟩
    · intro j rest hle hdf
      cases j with
      | null =>
        have hr : render Json.null = ['n', 'u', 'l', 'l'] := by simp [render]
        rw [hr, parseValue]
        rfl
      | bool b =>
        cases b with
        | true =>
          have hr : render (Json.bool true) = ['t', 'r', 'u', 'e'] := by
            simp [render]
          rw [hr, parseValue]
          rfl
        | false =>
          have hr : render (Json.bool false) = ['f', 'a', 'l', 's', 'e'] := by
            simp [render]
          rw [hr, parseValue]
          rfl
      | num n =>
        by_cases hneg : n < 0
        · have hr : render (Json.num n) = '-' :: natDigits n.natAbs := by
            simp [render, renderInt, hneg]
          rw [hr, List.cons_append, parseValue, skipWs_cons _ _ (by decide)]
          show (parseNatDigits (natDigits n.natAbs ++ rest)).map
            (fun p => (Json.num (-(p.1 : Int)), p.2)) = some (Json.num n, rest)
          rw [parseNatDigits_natDigits n.natAbs rest hdf]
          show some (Json.num (-(n.natAbs : Int)), rest) = some (Json.num n, rest)
          have hv : -((n.natAbs : Int)) = n := by omega
          rw [hv]
        · rcases hd : natDigits n.toNat with _ | ⟨d, ds⟩
          · exact absurd hd (natDigits_ne_nil _)
          have hr : render (Json.num n) = d :: ds := by
            simp [render, renderInt, hneg]
            exact hd
          have hdig : d.isDigit = true :=
            natDigits_all_digits n.toNat d (by rw [hd]; simp)
          have h1 : d ≠ '{' := isDigit_ne_lit d '{' (by decide) hdig
          have h2 : d ≠ '[' := isDigit_ne_lit d '[' (by decide) hdig
          have h3 : d ≠ '"' := isDigit_ne_lit d '"' (by decide) hdig
          have h4 : d ≠ 'n' := isDigit_ne_lit d 'n' (by decide) hdig
          have h5 : d ≠ 't' := isDigit_ne_lit d 't' (by decide) hdig
          have h6 : d ≠ 'f' := isDigit_ne_lit d 'f' (by decide) hdig
          have h7 : d ≠ '-' := isDigit_ne_lit d '-' (by decide) hdig
          have hpn : parseNatDigits (d :: (ds ++ rest)) = some (n.toNat, rest) := by
            rw [show d :: (ds ++ rest) = (d :: ds) ++ rest from rfl, ← hd]
            exact parseNatDigits_natDigits n.toNat rest hdf
          rw [hr, List.cons_append, parseValue,
            skipWs_cons _ _ (isJsonWs_false_of_isDigit d hdig)]
          show (if d = '{' then
              if (skipWs (ds ++ rest)).headD ' ' = '}' then
                some (Json.obj [], (skipWs (ds ++ rest)).tail)
              else (parseMembers f (skipWs (ds ++ rest))).map
                fun p => (Json.obj p.1, p.2)
            else if d = '[' then
              if (skipWs (ds ++ rest)).headD ' ' = ']' then
                some (Json.arr [], (skipWs (ds ++ rest)).tail)
              else (parseElems f (skipWs (ds ++ rest))).map
                fun p => (Json.arr p.1, p.2)
            else if d = '"' then
              (parseStringBody (ds ++ rest)).map fun p => (Json.str p.1, p.2)
            else if d = 'n' then
              (expectChars ['u', 'l', 'l'] (ds ++ rest)).map
                fun r2 => (Json.null, r2)
            else if d = 't' then
              (expectChars ['r', 'u', 'e'] (ds ++ rest)).map
                fun r2 => (Json.bool true, r2)
            else if d = 'f' then
              (expectChars ['a', 'l', 's', 'e'] (ds ++ rest)).map
                fun r2 => (Json.bool false, r2)
            else if d = '-' then
              (parseNatDigits (ds ++ rest)).map
                fun p => (Json.num (-(p.1 : Int)), p.2)
            else if d.isDigit then
              (parseNatDigits (d :: (ds ++ rest))).map
                fun p => (Json.num (p.1 : Int), p.2)
            else none) = some (Json.num n, rest)
          rw [if_neg h1, if_neg h2, if_neg h3, if_neg h4, if_neg h5, if_neg h6,
            if_neg h7, if_pos hdig, hpn]
          show some (Json.num ((n.toNat : Int)), rest) = some (Json.num n, rest)
          rw [Int.toNat_of_nonneg (by omega)]
      | str s =>
        have hr : render (Json.str s) = '"' :: (escapeChars s ++ ['"']) := by
          simp [render, renderString]
        rw [hr, List.cons_append, parseValue, skipWs_cons _ _ (by decide)]
        show (parseStringBody ((escapeChars s ++ ['"']) ++ rest)).map
          (fun p => (Json.str p.1, p.2)) = some (Json.str s, rest)
        rw [List.append_assoc, List.singleton_append,
          parseStringBody_escape s rest]
        rfl
      | arr es =>
        cases es with
        | nil =>
          have hr : render (Json.arr []) = ['[', ']'] := by
            simp [render, renderElems]
          rw [hr, show (['[', ']'] : Str) ++ rest = '[' :: ']' :: rest from rfl,
            parseValue, skipWs_cons _ _ (by decide)]
          show (if (skipWs (']' :: rest)).headD ' ' = ']' then
              some (Json.arr [], (skipWs (']' :: rest)).tail)
            else (parseElems f (skipWs (']' :: rest))).map
              fun p => (Json.arr p.1, p.2)) = some (Json.arr [], rest)
          rw [skipWs_cons _ _ (by decide)]
          rfl
        | cons e tl =>
          have hr : render (Json.arr (e :: tl)) =
              '[' :: (renderElems (e :: tl) ++ [']']) := by simp [render]
          rcases renderElems_cons e tl with ⟨t, ht⟩
          rcases renderHead e with ⟨c0, t0, he0, hg0⟩
          have hx : renderElems (e :: tl) ++ ']' :: rest =
              c0 :: ((t0 ++ t) ++ ']' :: rest) := by
            rw [ht, he0]
            simp [List.append_assoc]
          have hx2 : (renderElems (e :: tl) ++ [']']) ++ rest =
              renderElems (e :: tl) ++ ']' :: rest := by
            simp [List.append_assoc]
          rw [hr, List.cons_append, hx2, parseValue,
            skipWs_cons _ _ (by decide)]
          show (if (skipWs (renderElems (e :: tl) ++ ']' :: rest)).headD ' ' = ']' then
              some (Json.arr [], (skipWs (renderElems (e :: tl) ++ ']' :: rest)).tail)
            else (parseElems f (skipWs (renderElems (e :: tl) ++ ']' :: rest))).map
              fun p => (Json.arr p.1, p.2)) = some (Json.arr (e :: tl), rest)
          rw [hx, skipWs_cons _ _ (goodHead_not_ws c0 hg0)]
          rw [List.headD_cons, if_neg (goodHead_ne_close c0 hg0).1]
          rw [← hx]
          have hlen2 : (renderElems (e :: tl)).length < f := by
            rw [hr] at hle
            simp at hle
            omega
          rw [ihE (e :: tl) rest (by simp) hlen2]
          rfl
      | obj ms =>
        cases ms with
        | nil =>
          have hr : render (Json.obj []) = ['{', '}'] := by
            simp [render, renderMembers]
          rw [hr, show (['{', '}'] : Str) ++ rest = '{' :: '}' :: rest from rfl,
            parseValue, skipWs_cons _ _ (by decide)]
          show (if (skipWs ('}' :: rest)).headD ' ' = '}' then
              some (Json.obj [], (skipWs ('}' :: rest)).tail)
            else (parseMembers f (skipWs ('}' :: rest))).map
              fun p => (Json.obj p.1, p.2)) = some (Json.obj [], rest)
          rw [skipWs_cons _ _ (by decide)]
          rfl
        | cons m tl =>
          obtain ⟨k, v⟩ := m
          have hr : render (Json.obj ((k, v) :: tl)) =
              '{' :: (renderMembers ((k, v) :: tl) ++ ['}']) := by simp [render]
          rcases renderMembers_cons k v tl with ⟨t, ht⟩
          have hx : renderMembers ((k, v) :: tl) ++ '}' :: rest =
              '"' :: ((escapeChars k ++ ['"'] ++ (':' :: render v) ++ t) ++
                '}' :: rest) := by
            rw [ht]
            simp [renderString, List.append_assoc]
          have hx2 : (renderMembers ((k, v) :: tl) ++ ['}']) ++ rest =
              renderMembers ((k, v) :: tl) ++ '}' :: rest := by
            simp [List.append_assoc]
          rw [hr, List.cons_append, hx2, parseValue,
            skipWs_cons _ _ (by decide)]
          show (if (skipWs (renderMembers ((k, v) :: tl) ++ '}' :: rest)).headD ' ' = '}' then
              some (Json.obj [], (skipWs (renderMembers ((k, v) :: tl) ++ '}' :: rest)).tail)
            else (parseMembers f (skipWs (renderMembers ((k, v) :: tl) ++ '}' :: rest))).map
              fun p => (Json.obj p.1, p.2)) = some (Json.obj ((k, v) :: tl), rest)
          rw [hx, skipWs_cons _ _ (by decide)]
          rw [List.headD_cons, if_neg (by decide : ¬ ('"' : Char) = '}')]
          rw [← hx]
          have hlen2 : (renderMembers ((k, v) :: tl)).length < f := by
            rw [hr] at hle
            simp at hle
            omega
          rw [ihM ((k, v) :: tl) rest (by simp) hlen2]
          rfl
    · intro es rest hne hlen
      cases es with
      | nil => exact absurd rfl hne
      | cons e tl =>
        cases tl with
        | nil =>
          have hr : renderElems [e] = render e := by simp [renderElems]
          rw [hr] at hlen ⊢
          rw [parseElems, ihV e (']' :: rest) (by omega) (by rfl)]
          rfl
        | cons e2 tl2 =>
          have hr : renderElems (e :: e2 :: tl2) =
              render e ++ ',' :: renderElems (e2 :: tl2) := by simp [renderElems]
          rw [hr] at hlen ⊢
          rw [List.length_append, List.length_cons] at hlen
          have hE := render_length_pos e
          rw [List.append_assoc, List.cons_append, parseElems,
            ihV e (',' :: (renderElems (e2 :: tl2) ++ ']' :: rest))
              (by omega) (by rfl)]
          show (parseElems f (renderElems (e2 :: tl2) ++ ']' :: rest)).map
            (fun p => (e :: p.1, p.2)) = some (e :: e2 :: tl2, rest)
          rw [ihE (e2 :: tl2) rest (by simp) (by omega)]
          rfl
    · intro ms rest hne hlen
      cases ms with
      | nil => exact absurd rfl hne
      | cons m tl =>
        obtain ⟨k, v⟩ := m
        cases tl with
        | nil =>
          have hr : renderMembers [(k, v)] = renderString k ++ ':' :: render v := by
            simp [renderMembers]
          rw [hr] at hlen ⊢
          rw [List.length_append, List.length_cons] at hlen
          have hx : (renderString k ++ ':' :: render v) ++ '}' :: rest =
              '"' :: (escapeChars k ++ '"' :: (':' :: (render v ++ '}' :: rest))) := by
            simp [renderString, List.append_assoc]
          rw [hx, parseMembers, skipWs_cons _ _ (by decide)]
          show (match parseStringBody (escapeChars k ++ '"' ::
              (':' :: (render v ++ '}' :: rest))) with
            | none => none
            | some (k2, r2) =>
              match skipWs r2 with
              | ':' :: r3 =>
                match parseValue f r3 with
                | none => none
                | some (v2, r4) =>
                  match skipWs r4 with
                  | ',' :: r5 => (parseMembers f r5).map
                      fun p => ((k2, v2) :: p.1, p.2)
                  | '}' :: r5 => some ([(k2, v2)], r5)
                  | _ => none
              | _ => none) = some ([(k, v)], rest)
          rw [parseStringBody_escape k (':' :: (render v ++ '}' :: rest))]
          show (match skipWs (':' :: (render v ++ '}' :: rest)) with
            | ':' :: r3 =>
              match parseValue f r3 with
              | none => none
              | some (v2, r4) =>
                match skipWs r4 with
                | ',' :: r5 => (parseMembers f r5).map
                    fun p => ((k, v2) :: p.1, p.2)
                | '}' :: r5 => some ([(k, v2)], r5)
                | _ => none
            | _ => none) = some ([(k, v)], rest)
          rw [skipWs_cons _ _ (by decide : isJsonWs ':' = false)]
          show (match parseValue f (render v ++ '}' :: rest) with
            | none => none
            | some (v2, r4) =>
              match skipWs r4 with
              | ',' :: r5 => (parseMembers f r5).map fun p => ((k, v2) :: p.1, p.2)
              | '}' :: r5 => some ([(k, v2)], r5)
              | _ => none) = some ([(k, v)], rest)
          rw [ihV v ('}' :: rest)
            (by simp [renderString] at hlen; omega) (by rfl)]
          rfl
        | cons m2 tl2 =>
          obtain ⟨k2, v2⟩ := m2
          have hr : renderMembers ((k, v) :: (k2, v2) :: tl2) =
              renderString k ++ ':' :: render v ++
                ',' :: renderMembers ((k2, v2) :: tl2) := by
            simp [renderMembers]
          rw [hr] at hlen ⊢
          have hkv : 2 ≤ (renderString k).length := by
            simp [renderString]
          have hvp := render_length_pos v
          rw [List.length_append, List.length_cons, List.length_append,
            List.length_cons] at hlen
          have hx : ((renderString k ++ ':' :: render v ++
              ',' :: renderMembers ((k2, v2) :: tl2)) ++ '}' :: rest) =
              '"' :: (escapeChars k ++ '"' :: (':' :: (render v ++
                ',' :: (renderMembers ((k2, v2) :: tl2) ++ '}' :: rest)))) := by
            simp [renderString, List.append_assoc]
          rw [hx, parseMembers, skipWs_cons _ _ (by decide)]
          show (match parseStringBody (escapeChars k ++ '"' ::
              (':' :: (render v ++ ',' ::
                (renderMembers ((k2, v2) :: tl2) ++ '}' :: rest)))) with
            | none => none
            | some (kk, r2) =>
              match skipWs r2 with
              | ':' :: r3 =>
                match parseValue f r3 with
                | none => none
                | some (vv, r4) =>
                  match skipWs r4 with
                  | ',' :: r5 => (parseMembers f r5).map
                      fun p => ((kk, vv) :: p.1, p.2)
                  | '}' :: r5 => some ([(kk, vv)], r5)
                  | _ => none
              | _ => none) = some ((k, v) :: (k2, v2) :: tl2, rest)
          rw [parseStringBody_escape k (':' :: (render v ++ ',' ::
            (renderMembers ((k2, v2) :: tl2) ++ '}' :: rest)))]
          show (match skipWs (':' :: (render v ++ ',' ::
              (renderMembers ((k2, v2) :: tl2) ++ '}' :: rest))) with
            | ':' :: r3 =>
              match parseValue f r3 with
              | none => none
              | some (vv, r4) =>
                match skipWs r4 with
                | ',' :: r5 => (parseMembers f r5).map
                    fun p => ((k, vv) :: p.1, p.2)
                | '}' :: r5 => some ([(k, vv)], r5)
                | _ => none
            | _ => none) = some ((k, v) :: (k2, v2) :: tl2, rest)
          rw [skipWs_cons _ _ (by decide : isJsonWs ':' = false)]
          show (match parseValue f (render v ++ ',' ::
              (renderMembers ((k2, v2) :: tl2) ++ '}' :: rest)) with
            | none => none
            | some (vv, r4) =>
              match skipWs r4 with
              | ',' :: r5 => (parseMembers f r5).map fun p => ((k, vv) :: p.1, p.2)
              | '}' :: r5 => some ([(k, vv)], r5)
              | _ => none) = some ((k, v) :: (k2, v2) :: tl2, rest)
          rw [ihV v (',' :: (renderMembers ((k2, v2) :: tl2) ++ '}' :: rest))
            (by simp [renderString] at hlen hkv ⊢; omega) (by rfl)]
          show (parseMembers f (renderMembers ((k2, v2) :: tl2) ++ '}' :: rest)).map
            (fun p => ((k, v) :: p.1, p.2)) = some ((k, v) :: (k2, v2) :: tl2, rest)
          rw [ihM ((k2, v2) :: tl2) rest (by simp)
            (by simp [renderString] at hlen hkv ⊢; omega)]
          rfl

theorem jsonParseComplete_render (j : Json) :
    jsonParseComplete (render j) = some j := by
  unfold jsonParseComplete
  have h := (parseRoundAux ((render j).length + 1)).1 j [] (by omega) rfl
  rw [List.append_nil] at h
  rw [h]
  rfl

/-! The greedy brace-span extraction on text embedding one rendered
object. -/

theorem dropWhile_append_of_all {α : Type} (p : α → Bool) (l r : List α)
    (h : ∀ c ∈ l, p c = true) : (l ++ r).dropWhile p = r.dropWhile p :=
  dropWhile_append_all p l r h

theorem extractJsonSpan_embedded (ms : List (Str × Json)) (lead trail : Str)
    (hlead : '{' ∉ lead) (htrail : '}' ∉ trail) :
    extractJsonSpan (lead ++ render (Json.obj ms) ++ trail) =
      some (render (Json.obj ms)) := by
  have hr : render (Json.obj ms) = '{' :: (renderMembers ms ++ ['}']) := by
    simp [render]
  have hstep1 : (lead ++ render (Json.obj ms) ++ trail).dropWhile
      (fun c => c != '{') = '{' :: ((renderMembers ms ++ ['}']) ++ trail) := by
    rw [List.append_assoc,
      dropWhile_append_of_all _ lead _
        (fun c hc => by
          simp only [bne_iff_ne, ne_eq, decide_eq_true_eq]
          intro he
          rw [he] at hc
          exact hlead hc),
      hr, List.cons_append, List.dropWhile_cons]
    simp
  have hstep2 : (('{' : Char) :: ((renderMembers ms ++ ['}']) ++ trail)).reverse.dropWhile
      (fun d => d != '}') = '}' :: ((renderMembers ms).reverse ++ ['{']) := by
    rw [List.reverse_cons, List.reverse_append, List.reverse_append]
    rw [List.append_assoc, List.append_assoc,
      dropWhile_append_of_all _ trail.reverse _
        (fun c hc => by
          simp only [bne_iff_ne, ne_eq, decide_eq_true_eq]
          intro he
          rw [he] at hc
          exact htrail (List.mem_reverse.1 hc))]
    simp
  unfold extractJsonSpan
  rw [hstep1]
  show (match (('{' : Char) :: ((renderMembers ms ++ ['}']) ++ trail)).reverse.dropWhile
      (fun d => d != '}') with
    | [] => none
    | d :: q => some ((d :: q).reverse)) = some (render (Json.obj ms))
  rw [hstep2]
  show some (('}' :: ((renderMembers ms).reverse ++ ['{'])).reverse) =
    some (render (Json.obj ms))
  rw [hr]
  simp

/-- Claim C6 counterexample: trailing prose containing a closing brace makes
the greedy first-to-last-brace span include the prose, json.loads fails on
it, and the extractor returns None instead of the embedded object. -/
theorem C6_counterexample :
    parse_ai_response ("Here: \x7b\"a\": 1\x7d tail\x7d".data) = none ∧
    (none : Option Json) ≠ some (Json.obj [("a".data, Json.num 1)]) :=
  ⟨rfl, by simp⟩

/-- Claim C6 as amended: for every JSON object serialized into a larger
text blob, the response extractor locates the span from the first opening
brace to the LAST closing brace of the whole text and decodes it, so it
returns an object structurally equal to the original precisely when the
leading prose contains no opening brace and the trailing prose contains no
closing brace; arbitrary prose (the unamended claim) can break the span.
Numeric literals are modelled as integers. -/
theorem C6_extraction_roundtrip_amended (ms : List (Str × Json))
    (lead trail : Str) (hlead : '{' ∉ lead) (htrail : '}' ∉ trail) :
    parse_ai_response (lead ++ render (Json.obj ms) ++ trail) =
      some (Json.obj ms) := by
  unfold parse_ai_response
  rw [extractJsonSpan_embedded ms lead trail hlead htrail]
  exact jsonParseComplete_render (Json.obj ms)

theorem C6_witness :
    parse_ai_response ("Sure! Here is the JSON: ".data ++
      render (Json.obj [("a".data, Json.num (-3)),
        ("b".data, Json.arr [Json.null, Json.bool true, Json.str "x\n".data])]) ++
      " Enjoy.".data) =
    some (Json.obj [("a".data, Json.num (-3)),
      ("b".data, Json.arr [Json.null, Json.bool true, Json.str "x\n".data])]) :=
  C6_extraction_roundtrip_amended
    [("a".data, Json.num (-3)),
     ("b".data, Json.arr [Json.null, Json.bool true, Json.str "x\n".data])]
    ("Sure! Here is the JSON: ".data) (" Enjoy.".data) (by decide) (by decide)

/-! Claim C7: totality of the extractor on brace-free or malformed text. -/

theorem dropWhile_head_false {α : Type} (p : α → Bool) :
    ∀ (l : List α) (c : α) (r : List α), l.dropWhile p = c :: r →
      p c = false := by
  intro l
  induction l with
  | nil => intro c r h; simp at h
  | cons a t ih =>
    intro c r h
    rw [List.dropWhile_cons] at h
    by_cases hp : p a
    · rw [if_pos hp] at h
      exact ih c r h
    · rw [if_neg hp] at h
      injection h with h1 _
      rw [← h1]
      exact Bool.of_not_eq_true hp

/-- Claim C7: for every input text that has no brace span (no closing brace
after the first opening brace) or whose extracted brace span fails to
decode as JSON, parse_ai_response returns None; the model is a total
function, so no exception can reach the caller. -/
theorem C7_extractor_returns_none (s : Str) :
    (hasBraceSpan s = false → parse_ai_response s = none) ∧
    (∀ span, extractJsonSpan s = some span → jsonParseComplete span = none →
      parse_ai_response s = none) := by
  constructor
  · intro h
    have hext : extractJsonSpan s = none := by
      unfold hasBraceSpan at h
      unfold extractJsonSpan
      cases hd : s.dropWhile (fun c => c != '{') with
      | nil => rfl
      | cons c r =>
        rw [hd] at h
        have h2 : r.contains '}' = false := h
        have hceq : c = '{' := by
          have hcf := dropWhile_head_false _ s c r hd
          simpa using hcf
        have hcb : c ≠ '}' := by
          rw [hceq]
          decide
        have hall : ∀ d ∈ (c :: r).reverse, (d != '}') = true := by
          intro d hdm
          rw [List.mem_reverse] at hdm
          simp only [bne_iff_ne, ne_eq]
          rcases List.mem_cons.1 hdm with h1 | h1
          · rw [h1]
            exact hcb
          · intro he
            rw [he] at h1
            have h3 : r.elem '}' = true := List.elem_eq_true_of_mem h1
            have h4 : r.elem '}' = false := h2
            rw [h3] at h4
            exact Bool.noConfusion h4
        have hnil : ((c :: r).reverse.dropWhile (fun d => d != '}')) = [] :=
          List.dropWhile_eq_nil_iff.2 (fun d hdm => by
            have := hall d hdm
            simpa using this)
        show (match ((c :: r).reverse.dropWhile (fun d => d != '}')) with
          | [] => none
          | d :: q => some ((d :: q).reverse)) = none
        rw [hnil]
    unfold parse_ai_response
    rw [hext]
  · intro span hs hp
    unfold parse_ai_response
    rw [hs]
    exact hp

theorem C7_witness :
    parse_ai_response ("no braces in this reply at all".data) = none ∧
    parse_ai_response ("pre \x7bnot json\x7d post".data) = none :=
  ⟨(C7_extractor_returns_none ("no braces in this reply at all".data)).1
      (by decide),
   (C7_extractor_returns_none ("pre \x7bnot json\x7d post".data)).2
      ("\x7bnot json\x7d".data) (by rfl) (by rfl)⟩
